import Mathlib

/-!
Verification of the soupsavvy selector engine specification against the
repository's search scripts and the documented selector contract.

The repository ships three concrete search routines as JavaScript:
`test.js` (`findMatchingElements` with a `limit`), the browser-side
`soupsavvy/implementation/scripts/find_all.js` (`findMatchingElements`
without a limit, token-based attribute matching) and
`soupsavvy/implementation/scripts/find_ancestors.js` (`findAncestors`).
These are embedded below over an explicit tree of DOM nodes.  The parts of
the selector engine whose sources are not in the repository snapshot (the
Python selector classes, the `an+b` positional matchers and the
`find`/`find_all` base contract) are modelled directly from the
specification text; each such definition carries a doc comment starting
with `Modelled from the spec:`.
-/

/-! ## Character-level string operations

JavaScript string primitives used by the scripts (`toLowerCase`,
`split(" ")`, `includes`) are modelled structurally on `List Char` so that
every definition computes by kernel reduction. -/

/-- Lower-cased character sequence of a string; models
`s.toLowerCase()` restricted to ASCII tag names. -/
def lowerChars (s : String) : List Char :=
  s.toList.map Char.toLower

/-- Case-insensitive string comparison: models
`a.toLowerCase() === b.toLowerCase()`. -/
def lowerEq (a b : String) : Bool :=
  lowerChars a == lowerChars b

/-- Split a character list on every occurrence of `sep`, keeping empty
segments; models JavaScript `s.split(sep)` for a one-character separator. -/
def splitOnChar (sep : Char) : List Char → List (List Char)
  | [] => [[]]
  | c :: rest =>
    let r := splitOnChar sep rest
    if c = sep then [] :: r
    else
      match r with
      | [] => [[c]]
      | h :: t => (c :: h) :: t

/-- `val` is a member of the list of `" "`-separated segments of `attrVal`;
models `attrVal.split(" ").includes(val)` from `find_all.js`. -/
def tokenMember (val attrVal : String) : Bool :=
  (splitOnChar ' ' attrVal.toList).contains val.toList

/-- `pre` is a prefix of the second list (character-wise). -/
def charsPre : List Char → List Char → Bool
  | [], _ => true
  | _ :: _, [] => false
  | a :: as, b :: bs => a == b && charsPre as bs

/-- `needle` occurs as a contiguous subsequence of the second list. -/
def subChars (needle : List Char) : List Char → Bool
  | [] => charsPre needle []
  | c :: rest => charsPre needle (c :: rest) || subChars needle rest

/-- Substring containment: models `attrVal.includes(val)` from `test.js`. -/
def jsIncludes (attrVal val : String) : Bool :=
  subChars val.toList attrVal.toList

/-! ## The document tree

An explicit tree of backend nodes.  Each node carries a numeric identity
(two distinct nodes of a document have distinct ids), a kind separating
element nodes from non-element nodes (text, comments), a tag name, an
attribute mapping and an ordered child list. -/

/-- Kind of a DOM node: an element, or a non-element node (text, comment,
processing instruction). -/
inductive NodeKind where
  | element
  | text
  deriving DecidableEq, BEq, Repr

/-- A backend tree node: identity, kind, tag name, attribute mapping and
ordered children. -/
inductive Node where
  | mk (id : Nat) (kind : NodeKind) (tag : String)
      (attrs : List (String × String)) (children : List Node)

/-- Node identity (document-unique id). -/
def Node.id : Node → Nat
  | .mk i _ _ _ _ => i

/-- Node kind. -/
def Node.kind : Node → NodeKind
  | .mk _ k _ _ _ => k

/-- Tag name (meaningful for element nodes). -/
def Node.tag : Node → String
  | .mk _ _ t _ _ => t

/-- Attribute mapping of the node. -/
def Node.attrs : Node → List (String × String)
  | .mk _ _ _ a _ => a

/-- All child nodes, elements and non-elements alike (DOM `childNodes`). -/
def Node.childNodes : Node → List Node
  | .mk _ _ _ _ cs => cs

/-- Whether the node is an element node. -/
def Node.isElement (n : Node) : Bool :=
  n.kind == NodeKind.element

/-- First value bound to attribute `name`, or `none`; models
`element.getAttribute(name)` (which yields `null` for a missing
attribute). -/
def Node.getAttribute (n : Node) (name : String) : Option String :=
  n.attrs.lookup name

/-- Element children only (DOM `element.children`). -/
def Node.elemChildren (n : Node) : List Node :=
  n.childNodes.filter Node.isElement

/-- Pre-order (document-order) listing of a node and all its descendants. -/
def Node.preorder : Node → List Node
  | .mk i k t a cs => .mk i k t a cs :: go cs
where go : List Node → List Node
  | [] => []
  | c :: rest => c.preorder ++ go rest

/-- All descendant nodes of `n` in document order, excluding `n` itself. -/
def Node.descNodes (n : Node) : List Node :=
  Node.preorder.go n.childNodes

/-- All element descendants in document order; models
`element.querySelectorAll("*")` and `getElementsByTagName("*")`. -/
def Node.qsaStar (n : Node) : List Node :=
  n.descNodes.filter Node.isElement

/-- Element descendants with the given tag name (HTML tag lookup is
case-insensitive); models `element.getElementsByTagName(t)` for `t ≠ "*"`. -/
def Node.gebtn (t : String) (n : Node) : List Node :=
  n.descNodes.filter fun e => e.isElement && lowerEq e.tag t

/-- Document-order ids: ids of the nodes of `root`'s subtree in document
order.  A well-formed document has pairwise distinct ids. -/
def docOrderIds (root : Node) : List Nat :=
  root.preorder.map Node.id

/-- Document-order index of a node relative to `root`'s subtree. -/
def docIdx (root : Node) (el : Node) : Nat :=
  (docOrderIds root).indexOf el.id

/-- An absent tag-name argument: `none`, or the empty string — both falsy
in JavaScript (`!tagName`, `tagName || "*"`). -/
def tagAbsent : Option String → Bool
  | none => true
  | some t => t == ""

/-- The tag test of both search scripts:
`!tagName || el.tagName.toLowerCase() === tagName.toLowerCase()`. -/
def tagOK (tn : Option String) (el : Node) : Bool :=
  match tn with
  | none => true
  | some t => t == "" || lowerEq el.tag t

/-! ## `soupsavvy/implementation/scripts/find_all.js`

`findMatchingElements(root, tagName, attrs, recursive)`: attribute values
are matched by membership in the `" "`-split token list of the element's
attribute value; candidates are `querySelectorAll("*")` when recursive,
`element.children` otherwise.  Attribute matchers are string-valued. -/

namespace FindAllJs

/-- `matchesAttributes(element, attrs)` from `find_all.js`: every entry of
`attrs` must name a present attribute whose value contains the wanted
string as a `" "`-separated token. -/
def matchesAttributes (el : Node) (attrs : List (String × String)) : Bool :=
  attrs.all fun kv =>
    match el.getAttribute kv.1 with
    | none => false
    | some av => tokenMember kv.2 av

/-- `collectElements(element, recursive)` from `find_all.js`: iterate the
candidate nodes and keep those passing the tag test and the attribute
test. -/
def collectElements (tn : Option String) (attrs : List (String × String))
    (element : Node) (recursive : Bool) : List Node :=
  (if recursive then element.qsaStar else element.elemChildren).filter
    fun el => tagOK tn el && matchesAttributes el attrs

/-- `findMatchingElements(root, tagName, attrs, recursive)` from
`find_all.js`. -/
def findMatchingElements (root : Node) (tn : Option String)
    (attrs : List (String × String)) (recursive : Bool) : List Node :=
  collectElements tn attrs root recursive

end FindAllJs

/-! ## `test.js`

`findMatchingElements(root, tagName, attrs, recursive, limit)`: attribute
values are matched by substring containment (`attrVal.includes(val)`; the
`RegExp` branch of the source is outside the string-valued fragment
modelled here); recursive candidates come from
`getElementsByTagName(tagName || "*")`; collection stops as soon as
`limit` matches have been pushed (`limit` is falsy when `0`). -/

namespace TestJs

/-- `matchesAttributes(element, attrs)` from `test.js` (string matchers):
every entry of `attrs` must name a present attribute whose value contains
the wanted string as a substring. -/
def matchesAttributes (el : Node) (attrs : List (String × String)) : Bool :=
  attrs.all fun kv =>
    match el.getAttribute kv.1 with
    | none => false
    | some av => jsIncludes av kv.2

/-- Candidate nodes of `test.js`:
`element.getElementsByTagName(tagName || "*")` when recursive. -/
def candidates (tn : Option String) (element : Node) : List Node :=
  match tn with
  | none => element.qsaStar
  | some t => if t == "" then element.qsaStar else element.gebtn t

/-- The collection loop of `test.js`: push every candidate passing the
predicate and break as soon as `limit` (when non-zero) matches are
collected; `cnt` is the number already pushed. -/
def collectLimit (p : Node → Bool) (lim : Nat) : List Node → Nat → List Node
  | [], _ => []
  | e :: rest, cnt =>
    if p e then
      if lim ≠ 0 ∧ lim ≤ cnt + 1 then [e]
      else e :: collectLimit p lim rest (cnt + 1)
    else collectLimit p lim rest cnt

/-- `collectElements(element, recursive)` from `test.js`. -/
def collectElements (tn : Option String) (attrs : List (String × String))
    (lim : Nat) (element : Node) (recursive : Bool) : List Node :=
  collectLimit (fun el => tagOK tn el && matchesAttributes el attrs) lim
    (if recursive then candidates tn element else element.elemChildren) 0

/-- `findMatchingElements(root, tagName, attrs, recursive, limit)` from
`test.js`; `lim = 0` models an absent (falsy) limit. -/
def findMatchingElements (root : Node) (tn : Option String)
    (attrs : List (String × String)) (recursive : Bool) (lim : Nat) :
    List Node :=
  collectElements tn attrs lim root recursive

end TestJs

/-! ## `soupsavvy/implementation/scripts/find_ancestors.js`

`findAncestors(element, limit)` walks the parent chain while the current
node exists and has `nodeType === 1` (an element), collecting at most
`limit` ancestors when `limit` is truthy (non-zero).  The chain is
modelled by a node carrying its parent link. -/

/-- A DOM node seen through its parent link: identity, `nodeType`
(`1` = element) and parent. -/
inductive PNode where
  | mk (id : Nat) (nodeType : Nat) (parent : Option PNode)

/-- Node identity. -/
def PNode.id : PNode → Nat
  | .mk i _ _ => i

/-- DOM `nodeType` (`1` for element nodes). -/
def PNode.nodeType : PNode → Nat
  | .mk _ t _ => t

/-- Parent link (`parentNode`). -/
def PNode.parent : PNode → Option PNode
  | .mk _ _ p => p

/-- A node followed by its whole parent chain. -/
def PNode.chainCons : PNode → List PNode
  | .mk i t p => .mk i t p :: go p
where go : Option PNode → List PNode
  | none => []
  | some q => q.chainCons

/-- Parent chain of a node, nearest parent first. -/
def PNode.parentChain (el : PNode) : List PNode :=
  PNode.chainCons.go el.parent

/-- One iteration of the `while` loop of `find_ancestors.js`: with `cnt`
ancestors already collected, keep the current node while it is an element
(`nodeType === 1`), stopping once `lim` (when non-zero) ancestors are
collected, and continue up the parent link. -/
def ancStep : PNode → Nat → Nat → List PNode
  | .mk i t p, lim, cnt =>
    if t = 1 then
      if lim ≠ 0 ∧ lim ≤ cnt + 1 then [.mk i t p]
      else .mk i t p :: go p lim (cnt + 1)
    else []
where go : Option PNode → Nat → Nat → List PNode
  | none, _, _ => []
  | some q, lim, cnt => ancStep q lim cnt

/-- `findAncestors(element, limit)` from `find_ancestors.js`; `lim = 0`
models an absent (falsy) limit. -/
def findAncestors (el : PNode) (lim : Nat) : List PNode :=
  ancStep.go el.parent lim 0

/-! ## The selector engine

The Python selector classes are not part of the repository snapshot; the
selector algebra, its matching predicate, the `find`/`find_all` base
contract and structural equality are modelled from the specification. -/

/-- Modelled from the spec: whitespace-separated tokens of an attribute
value (the token-set reading of the `class` attribute), for the missing
class-selector source. -/
def wsTokens (s : String) : List (List Char) :=
  (splitOnChar ' ' s.toList).filter fun t => t ≠ []

/-- Modelled from the spec: the selector algebra of the missing Python
selector classes — type selector (optional tag name), attribute selector
(name with optional exact-value matcher), class selector (token
membership), conjunction, disjunction and negation. -/
inductive Selector where
  | typeSel (tag : Option String)
  | attrSel (name : String) (value : Option String)
  | classSel (token : String)
  | andSel (s1 s2 : Selector)
  | orSel (s1 s2 : Selector)
  | notSel (s : Selector)
  deriving DecidableEq, Repr

/-- Modelled from the spec: whether a selector is a simple (non-combinator)
primitive. -/
def Selector.isPrimitive : Selector → Bool
  | .typeSel _ => true
  | .attrSel _ _ => true
  | .classSel _ => true
  | _ => false

/-- Modelled from the spec: the matching predicate of the missing selector
classes.  A type selector with no name matches any element and otherwise
compares tag names case-insensitively; an attribute selector requires the
attribute to be present and, when a value matcher is supplied, the value
to equal it; a class selector requires the token to be a member of the
token set of the `class` attribute; the combinators are pointwise
conjunction, disjunction and negation. -/
def Selector.matches : Selector → Node → Bool
  | .typeSel tn, el =>
    match tn with
    | none => true
    | some t => lowerEq el.tag t
  | .attrSel name v, el =>
    match el.getAttribute name with
    | none => false
    | some av =>
      match v with
      | none => true
      | some s => av == s
  | .classSel tok, el =>
    match el.getAttribute "class" with
    | none => false
    | some av => (wsTokens av).contains tok.toList
  | .andSel a b, el => a.matches el && b.matches el
  | .orSel a b, el => a.matches el || b.matches el
  | .notSel a, el => !a.matches el

/-- Modelled from the spec: the missing `find_all` base contract — a single
linear scan over the element descendants (or the direct element children
when not recursive) keeping the matching elements, truncated by `limit`. -/
def Selector.find_all (s : Selector) (root : Node) (recursive : Bool)
    (limit : Option Nat) : List Node :=
  let base :=
    (if recursive then root.qsaStar else root.elemChildren).filter s.matches
  match limit with
  | none => base
  | some k => base.take k

/-- Modelled from the spec: the missing `find` base contract — first
element of `find_all`, `none` when there is no match and `strict` is off,
a not-found failure when `strict` is on. -/
def Selector.find (s : Selector) (root : Node) (recursive strict : Bool) :
    Except Unit (Option Node) :=
  match s.find_all root recursive none with
  | [] => if strict then .error () else .ok none
  | e :: _ => .ok (some e)

/-- Modelled from the spec: the missing structural selector equality —
kind-aware and, on the binary conjunction and disjunction, insensitive to
operand order (`AND(a,b) == AND(b,a)`). -/
def selEq : Selector → Selector → Bool
  | .typeSel t1, .typeSel t2 => t1 == t2
  | .attrSel n1 v1, .attrSel n2 v2 => n1 == n2 && v1 == v2
  | .classSel c1, .classSel c2 => c1 == c2
  | .andSel a b, .andSel c d => (selEq a c && selEq b d) || (selEq a d && selEq b c)
  | .orSel a b, .orSel c d => (selEq a c && selEq b d) || (selEq a d && selEq b c)
  | .notSel a, .notSel b => selEq a b
  | _, _ => false

/-! ## Positional (`an+b`) matching

The positional matcher sources are not in the repository snapshot; the
`an+b` formula, its parser and the named aliases are modelled from the
specification. -/

/-- Parse a digit run as a natural number, `acc` being the value read so
far; any non-digit character rejects the whole run. -/
def parseNatAux : List Char → Nat → Option Nat
  | [], acc => some acc
  | c :: rest, acc =>
    if c.isDigit then parseNatAux rest (acc * 10 + (c.toNat - 48)) else none

/-- Parse a non-empty digit run as a natural number. -/
def parseNatChars : List Char → Option Nat
  | [] => none
  | l => parseNatAux l 0

/-- Parse an optionally signed integer. -/
def parseIntChars : List Char → Option Int
  | '-' :: rest => (parseNatChars rest).map fun n => -(n : Int)
  | '+' :: rest => (parseNatChars rest).map fun n => (n : Int)
  | l => (parseNatChars l).map fun n => (n : Int)

/-- Modelled from the spec: the missing `an+b` expression parser — named
aliases `odd` (`2n+1`) and `even` (`2n`), a bare integer `b`, and `an+b`
with an optional coefficient (`n` meaning `1n`, `-n` meaning `-1n`);
malformed expressions are rejected with `none`. -/
def nthParse (s : String) : Option (Int × Int) :=
  if s = "odd" then some (2, 1)
  else if s = "even" then some (2, 0)
  else
    match splitOnChar 'n' s.toList with
    | [bs] => (parseIntChars bs).map fun b => ((0 : Int), b)
    | [as, bs] =>
      let a? : Option Int :=
        if as = [] then some 1
        else if as = ['-'] then some (-1)
        else parseIntChars as
      let b? : Option Int := if bs = [] then some 0 else parseIntChars bs
      match a?, b? with
      | some a, some b => some (a, b)
      | _, _ => none
    | _ => none

/-- Modelled from the spec: the missing positional match test — a 1-based
position `p` matches `an+b` iff `p = a*n + b` for some natural `n`,
decided through divisibility. -/
def nthCheck (a b : Int) (p : Nat) : Bool :=
  if a = 0 then (p : Int) - b == 0
  else ((p : Int) - b) % a == 0 && 0 ≤ ((p : Int) - b) / a

/-- Modelled from the spec: positions selected by `NthChild(s)` among
`count` siblings (1-based positions, counted from the start). -/
def nthChildSelect (s : String) (count : Nat) : List Nat :=
  match nthParse s with
  | some (a, b) => (List.range' 1 count).filter (nthCheck a b)
  | none => []

/-- Modelled from the spec: positions selected by `NthLastChild` with
formula `an+b` among `count` siblings (positions counted from the end:
position `p` from the start is position `count + 1 - p` from the end). -/
def nthLastChildSelect (a b : Int) (count : Nat) : List Nat :=
  (List.range' 1 count).filter fun p => nthCheck a b (count + 1 - p)

/-! ## Structural lemmas about the document tree -/

/-- A concrete document used by the witnesses: an `html` root with a `div`
containing a text node and a `p.x`, followed by a second `p`. -/
def sampleDoc : Node :=
  .mk 0 .element "html" []
    [.mk 1 .element "div" []
      [.mk 2 .text "" [] [],
       .mk 3 .element "p" [("class", "x")] []],
     .mk 4 .element "p" [("class", "x y")] []]

/-- A concrete parent chain: an element whose parents are an element and
then a document node (`nodeType 9`). -/
def samplePChain : PNode :=
  .mk 5 1 (some (.mk 4 1 (some (.mk 3 9 none))))

/-- The substring test of `test.js` and the token test of `find_all.js`
agree on the value the element binds to the constrained attribute. -/
def attrAgrees (el : Node) (kv : String × String) : Bool :=
  match el.getAttribute kv.1 with
  | none => true
  | some av => jsIncludes av kv.2 == tokenMember kv.2 av


open scoped List

theorem Node.preorder_eq (n : Node) : n.preorder = n :: n.descNodes := by
  cases n
  rfl

theorem preorder_go_cons (c : Node) (rest : List Node) :
    Node.preorder.go (c :: rest) = c.preorder ++ Node.preorder.go rest := rfl

/-- The direct children appear, in order, among the descendants produced by
the pre-order walk of a child list. -/
theorem children_sublist_go : ∀ cs : List Node, cs <+ Node.preorder.go cs
  | [] => List.Sublist.refl []
  | c :: rest => by
    rw [preorder_go_cons, Node.preorder_eq, List.cons_append]
    exact List.Sublist.cons₂ _
      ((children_sublist_go rest).trans (List.sublist_append_right _ _))

theorem descNodes_sublist (n : Node) : n.descNodes <+ n.preorder := by
  rw [Node.preorder_eq]
  exact List.sublist_cons_self _ _

theorem qsaStar_sublist (n : Node) : n.qsaStar <+ n.preorder :=
  (List.filter_sublist _).trans (descNodes_sublist n)

theorem elemChildren_sublist (n : Node) : n.elemChildren <+ n.preorder :=
  ((List.filter_sublist _).trans (children_sublist_go n.childNodes)).trans
    (descNodes_sublist n)

theorem gebtn_sublist (t : String) (n : Node) : n.gebtn t <+ n.preorder :=
  (List.filter_sublist _).trans (descNodes_sublist n)

/-- In a duplicate-free list every element sits strictly before every later
element, measured by `indexOf`. -/
theorem pairwise_indexOf_of_nodup :
    ∀ {l : List Nat}, l.Nodup →
      l.Pairwise fun a b => l.indexOf a < l.indexOf b := by
  intro l h
  induction l with
  | nil => exact List.Pairwise.nil
  | cons a tl ih =>
    rcases List.nodup_cons.mp h with ⟨hnotin, htl⟩
    refine List.Pairwise.cons (fun b hb => ?_) ?_
    · have hne : a ≠ b := by
        intro hab
        exact hnotin (hab ▸ hb)
      rw [List.indexOf_cons_self, List.indexOf_cons_ne _ hne]
      exact Nat.succ_pos _
    · refine (ih htl).imp_of_mem fun {x y} hx hy hlt => ?_
      have hnex : a ≠ x := by
        intro hax
        exact hnotin (hax ▸ hx)
      have hney : a ≠ y := by
        intro hay
        exact hnotin (hay ▸ hy)
      rw [List.indexOf_cons_ne _ hnex, List.indexOf_cons_ne _ hney]
      exact Nat.succ_lt_succ hlt

theorem pairwise_indexOf_sublist {l s : List Nat} (h : l.Nodup) (hs : s <+ l) :
    s.Pairwise fun a b => l.indexOf a < l.indexOf b :=
  List.Pairwise.sublist hs (pairwise_indexOf_of_nodup h)

/-- Every candidate node of the search scan (recursive or
direct-children-only) is an element node. -/
theorem candidates_isElement (root : Node) (recursive : Bool) :
    ∀ el ∈ (if recursive then root.qsaStar else root.elemChildren),
      el.isElement = true := by
  intro el hel
  cases recursive
  · exact (List.mem_filter.mp hel).2
  · exact (List.mem_filter.mp hel).2

/-- **C1.** For every tag/attribute query and every well-formed document
(pairwise distinct node ids), the list returned by the `find_all.js`
search contains only element nodes, contains each node at most once
(judged by node identity), and is sorted in strictly increasing
document-order index. -/
theorem findAll_result_invariants (root : Node) (tn : Option String)
    (attrs : List (String × String)) (recursive : Bool)
    (hw : (docOrderIds root).Nodup) :
    (∀ el ∈ FindAllJs.findMatchingElements root tn attrs recursive,
        el.isElement = true) ∧
    ((FindAllJs.findMatchingElements root tn attrs recursive).map Node.id).Nodup ∧
    (FindAllJs.findMatchingElements root tn attrs recursive).Pairwise
      (fun x y => docIdx root x < docIdx root y) := by
  have hsub : FindAllJs.findMatchingElements root tn attrs recursive <+
      root.preorder := by
    refine (List.filter_sublist _).trans ?_
    cases recursive
    · exact elemChildren_sublist root
    · exact qsaStar_sublist root
  have hids : (FindAllJs.findMatchingElements root tn attrs recursive).map Node.id
      <+ docOrderIds root := hsub.map Node.id
  refine ⟨?_, ?_, ?_⟩
  · intro el hel
    exact candidates_isElement root recursive el (List.mem_filter.mp hel).1
  · exact List.Nodup.sublist hids hw
  · exact (List.pairwise_map
      (R := fun a b =>
        (docOrderIds root).indexOf a < (docOrderIds root).indexOf b)
      (f := Node.id)).mp (pairwise_indexOf_sublist hw hids)

/-- Witness for C1: the invariants hold concretely for the `p` elements of
`sampleDoc`. -/
theorem findAll_result_invariants_witness :
    (docOrderIds sampleDoc).Nodup ∧
    (∀ el ∈ FindAllJs.findMatchingElements sampleDoc (some "p") [] true,
        el.isElement = true) ∧
    ((FindAllJs.findMatchingElements sampleDoc (some "p") [] true).map
      Node.id).Nodup ∧
    (FindAllJs.findMatchingElements sampleDoc (some "p") [] true).Pairwise
      (fun x y => docIdx sampleDoc x < docIdx sampleDoc y) :=
  ⟨by decide, findAll_result_invariants sampleDoc (some "p") [] true (by decide)⟩

/-- **C8.** The tag test of the `find_all.js` search holds iff no tag name
was supplied (`null` or the empty string, both falsy — the universal
case) or the element's tag name equals the given name case-insensitively;
and, in both the recursive and the direct-children-only search mode, an
element is returned exactly when it is a candidate of that mode and
passes the tag test and the attribute test. -/
theorem typeSelector_tag_test (root : Node) (tn : Option String)
    (attrs : List (String × String)) (recursive : Bool) (el : Node) :
    (tagOK tn el = true ↔
      tagAbsent tn = true ∨
        ∃ t, tn = some t ∧ lowerChars el.tag = lowerChars t) ∧
    (el ∈ FindAllJs.findMatchingElements root tn attrs recursive ↔
      el ∈ (if recursive then root.qsaStar else root.elemChildren) ∧
        tagOK tn el = true ∧ FindAllJs.matchesAttributes el attrs = true) := by
  constructor
  · cases tn with
    | none => simp [tagOK, tagAbsent]
    | some t => simp [tagOK, tagAbsent, lowerEq]
  · simp [FindAllJs.findMatchingElements, FindAllJs.collectElements,
      List.mem_filter, Bool.and_eq_true, and_assoc]

/-- Witness for C8 at a concrete element and query. -/
theorem typeSelector_tag_test_witness :
    (tagOK (some "P") (Node.mk 3 .element "p" [("class", "x")] []) = true ↔
      tagAbsent (some "P") = true ∨
        ∃ t, (some "P" : Option String) = some t ∧
          lowerChars (Node.mk 3 .element "p" [("class", "x")] []).tag
            = lowerChars t) ∧
    ((Node.mk 3 .element "p" [("class", "x")] []) ∈
        FindAllJs.findMatchingElements sampleDoc (some "P") [] true ↔
      (Node.mk 3 .element "p" [("class", "x")] []) ∈
          (if true then sampleDoc.qsaStar else sampleDoc.elemChildren) ∧
        tagOK (some "P") (Node.mk 3 .element "p" [("class", "x")] []) = true ∧
        FindAllJs.matchesAttributes (Node.mk 3 .element "p" [("class", "x")] [])
          [] = true) :=
  typeSelector_tag_test sampleDoc (some "P") [] true _

/-- **C6 counterexample.** On an element whose `id` attribute has the value
`"a b"`, `find_all.js` accepts the plain-string matcher `"a"` although the
attribute value is not equal to it: plain-string attribute matching is not
exact string equality. -/
theorem attr_exact_equality_refuted :
    FindAllJs.matchesAttributes (Node.mk 1 .element "p" [("id", "a b")] [])
      [("id", "a")] = true ∧
    (Node.mk 1 .element "p" [("id", "a b")] []).getAttribute "id"
      = some "a b" ∧
    ("a b" : String) ≠ "a" := by decide

/-- **C6 amended.** An attribute constraint of `find_all.js` matches an
element iff the named attribute is present and the supplied plain-string
matcher is a member of the `" "`-separated token list of the attribute's
value — the token-set semantics applies to every attribute, the `class`
attribute included (for which the claim's token-membership reading is
confirmed). -/
theorem attr_matcher_token_semantics (el : Node)
    (attrs : List (String × String)) :
    FindAllJs.matchesAttributes el attrs = true ↔
      ∀ kv ∈ attrs, ∃ av, el.getAttribute kv.1 = some av ∧
        (splitOnChar ' ' av.toList).contains kv.2.toList = true := by
  simp only [FindAllJs.matchesAttributes, List.all_eq_true]
  constructor
  · intro h kv hkv
    have hh := h kv hkv
    cases hga : el.getAttribute kv.1 with
    | none => rw [hga] at hh; exact absurd hh (by simp)
    | some av =>
      rw [hga] at hh
      exact ⟨av, rfl, hh⟩
  · intro h kv hkv
    rcases h kv hkv with ⟨av, hga, hmem⟩
    rw [hga]
    exact hmem

/-- Witness for C6 at a concrete element: the token `"b"` is found inside
the class value `"a b"`. -/
theorem attr_matcher_token_semantics_witness :
    FindAllJs.matchesAttributes (Node.mk 1 .element "p" [("class", "a b")] [])
      [("class", "b")] = true ↔
      ∀ kv ∈ [(("class" : String), ("b" : String))], ∃ av,
        (Node.mk 1 .element "p" [("class", "a b")] []).getAttribute kv.1
          = some av ∧
        (splitOnChar ' ' av.toList).contains kv.2.toList = true :=
  attr_matcher_token_semantics _ _

/-! ## The ancestor walk (`find_ancestors.js`) -/

@[simp] theorem PNode.nodeType_mk (i t : Nat) (p : Option PNode) :
    (PNode.mk i t p).nodeType = t := rfl

@[simp] theorem PNode.parent_mk (i t : Nat) (p : Option PNode) :
    (PNode.mk i t p).parent = p := rfl

theorem chainCons_go_some (q : PNode) :
    PNode.chainCons.go (some q) = q :: PNode.chainCons.go q.parent := by
  cases q
  rfl

/-- Without a limit the ancestor loop collects exactly the leading element
nodes of the parent chain. -/
theorem ancStep_go_zero : ∀ (cur : Option PNode) (cnt : Nat),
    ancStep.go cur 0 cnt
      = (PNode.chainCons.go cur).takeWhile fun q => q.nodeType == 1
  | none, _ => rfl
  | some (.mk i t p), cnt => by
    rw [chainCons_go_some, List.takeWhile_cons]
    by_cases ht : t = 1
    · simp [ancStep.go, ancStep, ht, ancStep_go_zero p (cnt + 1)]
    · simp [ancStep.go, ancStep, ht]

/-- With a positive limit the ancestor loop collects the leading element
nodes of the parent chain, truncated to the remaining allowance. -/
theorem ancStep_go_take : ∀ (cur : Option PNode) (lim cnt : Nat),
    cnt < lim →
    ancStep.go cur lim cnt
      = ((PNode.chainCons.go cur).takeWhile fun q => q.nodeType == 1).take
          (lim - cnt)
  | none, _, _, _ => by simp [ancStep.go, PNode.chainCons.go]
  | some (.mk i t p), lim, cnt, h => by
    rw [chainCons_go_some, List.takeWhile_cons]
    have hne : lim ≠ 0 := by omega
    by_cases ht : t = 1
    · by_cases hl : lim ≤ cnt + 1
      · have heq : lim - cnt = 1 := by omega
        simp [ancStep.go, ancStep, ht, hne, hl, heq]
      · have h2 : cnt + 1 < lim := by omega
        have hsucc : lim - cnt = (lim - (cnt + 1)) + 1 := by omega
        simp [ancStep.go, ancStep, ht, hne, hl,
          ancStep_go_take p lim (cnt + 1) h2, hsucc]
    · simp [ancStep.go, ancStep, ht]

/-- **C9.** For every element and every limit, `findAncestors` returns only
element nodes (the walk never yields the document node or any other
non-element node), ordered from the nearest parent outward along the
parent chain (a prefix of the chain), with at most `limit` entries when
`limit` is positive; `limit = 1` yields the direct parent alone (when it
is an element). -/
theorem findAncestors_contract (el : PNode) (lim : Nat) :
    (∀ x ∈ findAncestors el lim, x.nodeType = 1) ∧
    findAncestors el lim <+: el.parentChain ∧
    (0 < lim → (findAncestors el lim).length ≤ lim) ∧
    (lim = 1 → findAncestors el lim =
      (match el.parent with
        | none => []
        | some q => if q.nodeType = 1 then [q] else [])) := by
  refine ⟨?_, ?_, ?_, ?_⟩
  · intro x hx
    cases lim with
    | zero =>
      rw [findAncestors, ancStep_go_zero] at hx
      simpa using List.mem_takeWhile_imp hx
    | succ n =>
      rw [findAncestors, ancStep_go_take el.parent (n + 1) 0 (Nat.succ_pos n)]
        at hx
      simpa using List.mem_takeWhile_imp (List.mem_of_mem_take hx)
  · cases lim with
    | zero =>
      rw [findAncestors, ancStep_go_zero]
      exact List.takeWhile_prefix _
    | succ n =>
      rw [findAncestors, ancStep_go_take el.parent (n + 1) 0 (Nat.succ_pos n)]
      exact (List.take_prefix _ _).trans (List.takeWhile_prefix _)
  · intro hpos
    rw [findAncestors, ancStep_go_take el.parent lim 0 hpos]
    simp only [List.length_take, Nat.sub_zero]
    omega
  · intro h1
    subst h1
    rw [findAncestors, ancStep_go_take el.parent 1 0 Nat.one_pos]
    cases hp : el.parent with
    | none => simp [PNode.chainCons.go]
    | some q =>
      rw [chainCons_go_some, List.takeWhile_cons]
      by_cases hq : q.nodeType = 1
      · simp [hq]
      · simp [hq]

/-- Witness for C9 at a concrete chain with `limit = 1`. -/
theorem findAncestors_contract_witness :
    (∀ x ∈ findAncestors samplePChain 1, x.nodeType = 1) ∧
    findAncestors samplePChain 1 <+: samplePChain.parentChain ∧
    (findAncestors samplePChain 1).length ≤ 1 ∧
    findAncestors samplePChain 1 =
      (match samplePChain.parent with
        | none => []
        | some q => if q.nodeType = 1 then [q] else []) := by
  obtain ⟨h1, h2, h3, h4⟩ := findAncestors_contract samplePChain 1
  exact ⟨h1, h2, h3 Nat.one_pos, h4 rfl⟩

/-! ## Limit truncation in the `test.js` search -/

/-- With a falsy (`0`) limit the collection loop is a plain filter. -/
theorem collectLimit_zero (p : Node → Bool) :
    ∀ (els : List Node) (cnt : Nat),
      TestJs.collectLimit p 0 els cnt = els.filter p
  | [], _ => rfl
  | e :: rest, cnt => by
    by_cases hp : p e
    · simp [TestJs.collectLimit, hp, collectLimit_zero p rest (cnt + 1),
        List.filter_cons]
    · simp [TestJs.collectLimit, hp, collectLimit_zero p rest cnt,
        List.filter_cons]

/-- With a positive limit the collection loop takes the first
`lim - cnt` filtered elements. -/
theorem collectLimit_take (p : Node → Bool) :
    ∀ (els : List Node) (lim cnt : Nat), cnt < lim →
      TestJs.collectLimit p lim els cnt = (els.filter p).take (lim - cnt)
  | [], lim, cnt, _ => by simp [TestJs.collectLimit]
  | e :: rest, lim, cnt, h => by
    have hne : lim ≠ 0 := by omega
    by_cases hp : p e
    · by_cases hl : lim ≤ cnt + 1
      · have heq : lim - cnt = 1 := by omega
        simp [TestJs.collectLimit, hp, hne, hl, heq, List.filter_cons]
      · have h2 : cnt + 1 < lim := by omega
        have hsucc : lim - cnt = (lim - (cnt + 1)) + 1 := by omega
        simp [TestJs.collectLimit, hp, hne, hl, List.filter_cons,
          collectLimit_take p rest lim (cnt + 1) h2, hsucc]
    · simp [TestJs.collectLimit, hp, List.filter_cons,
        collectLimit_take p rest lim cnt h]

/-- **C3.** For every query and positive `k`, the `test.js` search with
`limit = k` returns `min k n` elements where `n` is the size of the
unlimited result, the truncated list is a prefix of the unlimited one, and
the collection loop never scans past the `k`-th match: once `k` matches
lie in a scanned segment, any extension of the input beyond that segment
leaves the result unchanged. -/
theorem find_all_limit_truncation (root : Node) (tn : Option String)
    (attrs : List (String × String)) (recursive : Bool) (k : Nat)
    (hk : 0 < k) :
    (TestJs.findMatchingElements root tn attrs recursive k).length
      = min k (TestJs.findMatchingElements root tn attrs recursive 0).length ∧
    TestJs.findMatchingElements root tn attrs recursive k <+:
      TestJs.findMatchingElements root tn attrs recursive 0 ∧
    (∀ (p : Node → Bool) (els extra : List Node),
      k ≤ (els.filter p).length →
      TestJs.collectLimit p k (els ++ extra) 0 = TestJs.collectLimit p k els 0) := by
  have hK : TestJs.findMatchingElements root tn attrs recursive k
      = (((if recursive then TestJs.candidates tn root
            else root.elemChildren)).filter
          (fun el => tagOK tn el && TestJs.matchesAttributes el attrs)).take k := by
    unfold TestJs.findMatchingElements TestJs.collectElements
    rw [collectLimit_take _ _ k 0 hk, Nat.sub_zero]
  have h0 : TestJs.findMatchingElements root tn attrs recursive 0
      = ((if recursive then TestJs.candidates tn root
            else root.elemChildren)).filter
          (fun el => tagOK tn el && TestJs.matchesAttributes el attrs) := by
    unfold TestJs.findMatchingElements TestJs.collectElements
    rw [collectLimit_zero]
  refine ⟨?_, ?_, ?_⟩
  · rw [hK, h0, List.length_take]
  · rw [hK, h0]
    exact List.take_prefix _ _
  · intro p els extra hlen
    rw [collectLimit_take p _ k 0 hk, collectLimit_take p _ k 0 hk,
      Nat.sub_zero, List.filter_append, List.take_append_of_le_length hlen]

/-- Witness for C3: limit `1` on `sampleDoc` and a concrete stopped scan. -/
theorem find_all_limit_truncation_witness :
    (0 : Nat) < 1 ∧
    (TestJs.findMatchingElements sampleDoc (some "p") [] true 1).length
      = min 1 (TestJs.findMatchingElements sampleDoc (some "p") [] true 0).length ∧
    (TestJs.findMatchingElements sampleDoc (some "p") [] true 1 <+:
      TestJs.findMatchingElements sampleDoc (some "p") [] true 0) ∧
    TestJs.collectLimit Node.isElement 1
        ([Node.mk 7 .element "a" [] []] ++ [Node.mk 8 .element "b" [] []]) 0
      = TestJs.collectLimit Node.isElement 1 [Node.mk 7 .element "a" [] []] 0 := by
  obtain ⟨h1, h2, h3⟩ :=
    find_all_limit_truncation sampleDoc (some "p") [] true 1 Nat.one_pos
  exact ⟨Nat.one_pos, h1, h2,
    h3 Node.isElement [Node.mk 7 .element "a" [] []]
      [Node.mk 8 .element "b" [] []] (by decide)⟩

/-! ## Comparing the two search implementations -/

/-- Pointwise congruence for `List.all`. -/
theorem list_all_congr {α : Type} (p q : α → Bool) :
    ∀ l : List α, (∀ x ∈ l, p x = q x) → l.all p = l.all q
  | [], _ => rfl
  | x :: xs, h => by
    rw [List.all_cons, List.all_cons, h x (List.mem_cons_self x xs),
      list_all_congr p q xs fun y hy => h y (List.mem_cons_of_mem x hy)]

/-- When the two attribute-value tests agree on every constrained
attribute of an element, the two `matchesAttributes` coincide there. -/
theorem matchers_agree (el : Node) (attrs : List (String × String))
    (h : ∀ kv ∈ attrs, attrAgrees el kv = true) :
    TestJs.matchesAttributes el attrs = FindAllJs.matchesAttributes el attrs := by
  unfold TestJs.matchesAttributes FindAllJs.matchesAttributes
  refine list_all_congr _ _ attrs fun kv hkv => ?_
  have hh := h kv hkv
  unfold attrAgrees at hh
  cases hga : el.getAttribute kv.1 with
  | none => rfl
  | some av =>
    rw [hga] at hh
    exact eq_of_beq hh

/-- **C10 counterexample.** On a document whose single `p` element has
`class="foo"`, the constraint `class = "oo"` matches under the substring
test of `test.js` but not under the token test of `find_all.js`: the two
`findMatchingElements` differ on the same input. -/
theorem impl_equivalence_refuted :
    TestJs.findMatchingElements
        (Node.mk 0 .element "html" []
          [Node.mk 1 .element "p" [("class", "foo")] []])
        none [("class", "oo")] true 0
      ≠ FindAllJs.findMatchingElements
        (Node.mk 0 .element "html" []
          [Node.mk 1 .element "p" [("class", "foo")] []])
        none [("class", "oo")] true := by
  intro h
  have h1 : TestJs.findMatchingElements
      (Node.mk 0 .element "html" []
        [Node.mk 1 .element "p" [("class", "foo")] []])
      none [("class", "oo")] true 0
      = [Node.mk 1 .element "p" [("class", "foo")] []] := rfl
  have h2 : FindAllJs.findMatchingElements
      (Node.mk 0 .element "html" []
        [Node.mk 1 .element "p" [("class", "foo")] []])
      none [("class", "oo")] true = [] := rfl
  rw [h1, h2] at h
  exact List.cons_ne_nil _ _ h

/-- **C10 amended.** The two `findMatchingElements` implementations agree
— same elements, same order — whenever the substring test and the token
test agree on every attribute value of the document that the query
constrains (in particular always when the attribute mapping is empty);
`test.js` is invoked with no (falsy) limit. -/
theorem impl_equivalence_token_agree (root : Node) (tn : Option String)
    (attrs : List (String × String)) (recursive : Bool)
    (hagree : (root.preorder.all fun el => attrs.all (attrAgrees el)) = true) :
    TestJs.findMatchingElements root tn attrs recursive 0
      = FindAllJs.findMatchingElements root tn attrs recursive := by
  have hag : ∀ el ∈ root.preorder, ∀ kv ∈ attrs, attrAgrees el kv = true := by
    simpa using hagree
  have hpt : ∀ el ∈ root.preorder,
      (tagOK tn el && TestJs.matchesAttributes el attrs)
        = (tagOK tn el && FindAllJs.matchesAttributes el attrs) := by
    intro el hel
    rw [matchers_agree el attrs (hag el hel)]
  unfold TestJs.findMatchingElements TestJs.collectElements
    FindAllJs.findMatchingElements FindAllJs.collectElements
  rw [collectLimit_zero]
  cases recursive with
  | false =>
    exact List.filter_congr fun el hel =>
      hpt el ((elemChildren_sublist root).subset hel)
  | true =>
    have hsame : ∀ el ∈ root.qsaStar, el ∈ root.preorder :=
      fun el hel => (qsaStar_sublist root).subset hel
    cases tn with
    | none =>
      exact List.filter_congr fun el hel => hpt el (hsame el hel)
    | some t =>
      by_cases ht : (t == "") = true
      · show List.filter _
            (if (t == "") = true then root.qsaStar else Node.gebtn t root)
            = List.filter _ root.qsaStar
        rw [if_pos ht]
        exact List.filter_congr fun el hel => hpt el (hsame el hel)
      · show List.filter _
            (if (t == "") = true then root.qsaStar else Node.gebtn t root)
            = List.filter _ root.qsaStar
        rw [if_neg ht]
        have ht' : (t == "") = false := by
          simpa using ht
        unfold Node.gebtn Node.qsaStar
        rw [List.filter_filter, List.filter_filter]
        refine List.filter_congr fun el hel => ?_
        have help : el ∈ root.preorder :=
          (descNodes_sublist root).subset hel
        have hm := matchers_agree el attrs (hag el help)
        simp only [tagOK, ht', Bool.false_or, hm]
        cases lowerEq el.tag t <;>
          cases FindAllJs.matchesAttributes el attrs <;>
          cases el.isElement <;> rfl

/-- Witness for C10 amended: both implementations return the two `class`
holders of `sampleDoc`, the token test agreeing with the substring test on
every attribute value of the document. -/
theorem impl_equivalence_token_agree_witness :
    (sampleDoc.preorder.all fun el =>
      [(("class" : String), ("x" : String))].all (attrAgrees el)) = true ∧
    TestJs.findMatchingElements sampleDoc none [("class", "x")] true 0
      = FindAllJs.findMatchingElements sampleDoc none [("class", "x")] true :=
  ⟨by decide,
    impl_equivalence_token_agree sampleDoc none [("class", "x")] true (by decide)⟩

/-! ## The `find`/`find_all` contract -/

/-- **C2.** Modelled from the spec (the Python selector base class is not
in the snapshot): `find` returns the first element of `find_all` when the
latter is non-empty; on an empty result `find` returns `none` when
`strict` is off and a not-found failure when `strict` is on; and
`find_all` signals zero matches by the empty list, never by a failure. -/
theorem find_first_of_find_all (s : Selector) (root : Node)
    (recursive : Bool) :
    (s.find_all root recursive none ≠ [] →
      ∀ strict, s.find root recursive strict
        = .ok (s.find_all root recursive none).head?) ∧
    (s.find_all root recursive none = [] →
      s.find root recursive false = .ok none ∧
      s.find root recursive true = .error ()) ∧
    ((∀ e ∈ (if recursive then root.qsaStar else root.elemChildren),
        s.matches e = false) →
      s.find_all root recursive none = []) := by
  refine ⟨?_, ?_, ?_⟩
  · intro hne strict
    unfold Selector.find
    cases hfa : s.find_all root recursive none with
    | nil => exact absurd hfa hne
    | cons e rest => rfl
  · intro hempty
    unfold Selector.find
    rw [hempty]
    exact ⟨rfl, rfl⟩
  · intro hnone
    show List.filter _ _ = []
    rw [List.filter_eq_nil_iff]
    intro e he
    simp [hnone e he]

/-- Witness for C2: a present and an absent tag on `sampleDoc`. -/
theorem find_first_of_find_all_witness :
    Selector.find (.typeSel (some "p")) sampleDoc true false
      = .ok ((Selector.find_all (.typeSel (some "p")) sampleDoc true
          none).head?) ∧
    Selector.find (.typeSel (some "nope")) sampleDoc true false = .ok none ∧
    Selector.find (.typeSel (some "nope")) sampleDoc true true = .error () ∧
    Selector.find_all (.typeSel (some "nope")) sampleDoc true none = [] := by
  obtain ⟨h1, -, -⟩ :=
    find_first_of_find_all (.typeSel (some "p")) sampleDoc true
  obtain ⟨-, h2, h3⟩ :=
    find_first_of_find_all (.typeSel (some "nope")) sampleDoc true
  have hne : Selector.find_all (.typeSel (some "p")) sampleDoc true none
      ≠ [] := by
    intro hh
    exact absurd (congrArg List.length hh) (by decide)
  have hemp : Selector.find_all (.typeSel (some "nope")) sampleDoc true none
      = [] := h3 (by decide)
  exact ⟨h1 hne false, (h2 hemp).1, (h2 hemp).2, hemp⟩

/-! ## The AND combinator -/

/-- **C7.** Modelled from the spec (the Python combinator classes are not
in the snapshot): the conjunction matches iff every child matches, a
failing first child forces the conjunction to `false` whatever the second
child computes (the extensional content of short-circuiting), and for
primitive `A`, `B` the `find_all` of `A & B` is the sublist of
`A.find_all` consisting of the elements `B` matches. -/
theorem and_combinator_semantics (A B : Selector) (root : Node)
    (recursive : Bool) (e : Node)
    (hA : A.isPrimitive = true) (hB : B.isPrimitive = true) :
    (Selector.matches (.andSel A B) e = true ↔
      A.matches e = true ∧ B.matches e = true) ∧
    (A.matches e = false → Selector.matches (.andSel A B) e = false) ∧
    Selector.find_all (.andSel A B) root recursive none
      = (A.find_all root recursive none).filter B.matches := by
  refine ⟨?_, ?_, ?_⟩
  · show (A.matches e && B.matches e) = true ↔ _
    exact iff_of_eq (Bool.and_eq_true _ _)
  · intro h
    show (A.matches e && B.matches e) = false
    rw [h, Bool.false_and]
  · show List.filter _ _ = List.filter _ (List.filter _ _)
    rw [List.filter_filter]
    exact List.filter_congr fun x _ =>
      Bool.and_comm (A.matches x) (B.matches x)

/-- Witness for C7: `p & .x` on `sampleDoc`. -/
theorem and_combinator_semantics_witness :
    (Selector.matches (.andSel (.typeSel (some "p")) (.classSel "x"))
        (Node.mk 3 .element "p" [("class", "x")] []) = true ↔
      Selector.matches (.typeSel (some "p"))
          (Node.mk 3 .element "p" [("class", "x")] []) = true ∧
      Selector.matches (.classSel "x")
          (Node.mk 3 .element "p" [("class", "x")] []) = true) ∧
    Selector.matches (.andSel (.typeSel (some "p")) (.classSel "x"))
        (Node.mk 1 .element "div" [] []) = false ∧
    Selector.find_all (.andSel (.typeSel (some "p")) (.classSel "x"))
        sampleDoc true none
      = (Selector.find_all (.typeSel (some "p")) sampleDoc true none).filter
          (Selector.matches (.classSel "x")) := by
  refine ⟨?_, ?_, ?_⟩
  · exact (and_combinator_semantics (.typeSel (some "p")) (.classSel "x")
      sampleDoc true (Node.mk 3 .element "p" [("class", "x")] [])
      (by decide) (by decide)).1
  · exact (and_combinator_semantics (.typeSel (some "p")) (.classSel "x")
      sampleDoc true (Node.mk 1 .element "div" [] [])
      (by decide) (by decide)).2.1 (by decide)
  · exact (and_combinator_semantics (.typeSel (some "p")) (.classSel "x")
      sampleDoc true (Node.mk 3 .element "p" [("class", "x")] [])
      (by decide) (by decide)).2.2

/-! ## Selector equality -/

theorem selEq_refl : ∀ s : Selector, selEq s s = true := by
  intro s
  induction s with
  | typeSel t => simp [selEq]
  | attrSel n v => simp [selEq]
  | classSel c => simp [selEq]
  | andSel a b iha ihb => simp [selEq, iha, ihb]
  | orSel a b iha ihb => simp [selEq, iha, ihb]
  | notSel a ih => simp [selEq, ih]

theorem selEq_symm : ∀ s t : Selector, selEq s t = true → selEq t s = true := by
  intro s
  induction s with
  | typeSel t1 =>
    intro t h
    cases t
    case typeSel t2 =>
      simp only [selEq, beq_iff_eq] at h ⊢
      exact h.symm
    all_goals simp [selEq] at h
  | attrSel n v =>
    intro t h
    cases t
    case attrSel n2 v2 =>
      simp only [selEq, Bool.and_eq_true, beq_iff_eq] at h ⊢
      exact ⟨h.1.symm, h.2.symm⟩
    all_goals simp [selEq] at h
  | classSel c =>
    intro t h
    cases t
    case classSel c2 =>
      simp only [selEq, beq_iff_eq] at h ⊢
      exact h.symm
    all_goals simp [selEq] at h
  | andSel a b iha ihb =>
    intro t h
    cases t
    case andSel c d =>
      simp only [selEq, Bool.or_eq_true, Bool.and_eq_true] at h ⊢
      rcases h with ⟨h1, h2⟩ | ⟨h1, h2⟩
      · exact Or.inl ⟨iha _ h1, ihb _ h2⟩
      · exact Or.inr ⟨ihb _ h2, iha _ h1⟩
    all_goals simp [selEq] at h
  | orSel a b iha ihb =>
    intro t h
    cases t
    case orSel c d =>
      simp only [selEq, Bool.or_eq_true, Bool.and_eq_true] at h ⊢
      rcases h with ⟨h1, h2⟩ | ⟨h1, h2⟩
      · exact Or.inl ⟨iha _ h1, ihb _ h2⟩
      · exact Or.inr ⟨ihb _ h2, iha _ h1⟩
    all_goals simp [selEq] at h
  | notSel a ih =>
    intro t h
    cases t
    case notSel x =>
      simp only [selEq] at h ⊢
      exact ih _ h
    all_goals simp [selEq] at h

theorem selEq_trans : ∀ s t u : Selector,
    selEq s t = true → selEq t u = true → selEq s u = true := by
  intro s
  induction s with
  | typeSel t1 =>
    intro t u h1 h2
    cases t
    case typeSel t2 =>
      cases u
      case typeSel t3 =>
        simp only [selEq, beq_iff_eq] at h1 h2 ⊢
        exact h1.trans h2
      all_goals simp [selEq] at h2
    all_goals simp [selEq] at h1
  | attrSel n v =>
    intro t u h1 h2
    cases t
    case attrSel n2 v2 =>
      cases u
      case attrSel n3 v3 =>
        simp only [selEq, Bool.and_eq_true, beq_iff_eq] at h1 h2 ⊢
        exact ⟨h1.1.trans h2.1, h1.2.trans h2.2⟩
      all_goals simp [selEq] at h2
    all_goals simp [selEq] at h1
  | classSel c =>
    intro t u h1 h2
    cases t
    case classSel c2 =>
      cases u
      case classSel c3 =>
        simp only [selEq, beq_iff_eq] at h1 h2 ⊢
        exact h1.trans h2
      all_goals simp [selEq] at h2
    all_goals simp [selEq] at h1
  | andSel a b iha ihb =>
    intro t u h1 h2
    cases t
    case andSel c d =>
      cases u
      case andSel e f =>
        simp only [selEq, Bool.or_eq_true, Bool.and_eq_true] at h1 h2 ⊢
        rcases h1 with ⟨h1a, h1b⟩ | ⟨h1a, h1b⟩ <;>
          rcases h2 with ⟨h2a, h2b⟩ | ⟨h2a, h2b⟩
        · exact Or.inl ⟨iha _ _ h1a h2a, ihb _ _ h1b h2b⟩
        · exact Or.inr ⟨iha _ _ h1a h2a, ihb _ _ h1b h2b⟩
        · exact Or.inr ⟨iha _ _ h1a h2b, ihb _ _ h1b h2a⟩
        · exact Or.inl ⟨iha _ _ h1a h2b, ihb _ _ h1b h2a⟩
      all_goals simp [selEq] at h2
    all_goals simp [selEq] at h1
  | orSel a b iha ihb =>
    intro t u h1 h2
    cases t
    case orSel c d =>
      cases u
      case orSel e f =>
        simp only [selEq, Bool.or_eq_true, Bool.and_eq_true] at h1 h2 ⊢
        rcases h1 with ⟨h1a, h1b⟩ | ⟨h1a, h1b⟩ <;>
          rcases h2 with ⟨h2a, h2b⟩ | ⟨h2a, h2b⟩
        · exact Or.inl ⟨iha _ _ h1a h2a, ihb _ _ h1b h2b⟩
        · exact Or.inr ⟨iha _ _ h1a h2a, ihb _ _ h1b h2b⟩
        · exact Or.inr ⟨iha _ _ h1a h2b, ihb _ _ h1b h2a⟩
        · exact Or.inl ⟨iha _ _ h1a h2b, ihb _ _ h1b h2a⟩
      all_goals simp [selEq] at h2
    all_goals simp [selEq] at h1
  | notSel a ih =>
    intro t u h1 h2
    cases t
    case notSel x =>
      cases u
      case notSel y =>
        simp only [selEq] at h1 h2 ⊢
        exact ih _ _ h1 h2
      all_goals simp [selEq] at h2
    all_goals simp [selEq] at h1

/-- Equal selectors match exactly the same elements. -/
theorem selEq_matches : ∀ s t : Selector, selEq s t = true →
    ∀ e : Node, s.matches e = t.matches e := by
  intro s
  induction s with
  | typeSel t1 =>
    intro t h e
    cases t
    case typeSel t2 =>
      simp only [selEq, beq_iff_eq] at h
      rw [h]
    all_goals simp [selEq] at h
  | attrSel n v =>
    intro t h e
    cases t
    case attrSel n2 v2 =>
      simp only [selEq, Bool.and_eq_true, beq_iff_eq] at h
      rw [show Selector.attrSel n v = Selector.attrSel n2 v2 by
        rw [h.1, h.2]]
    all_goals simp [selEq] at h
  | classSel c =>
    intro t h e
    cases t
    case classSel c2 =>
      simp only [selEq, beq_iff_eq] at h
      rw [h]
    all_goals simp [selEq] at h
  | andSel a b iha ihb =>
    intro t h e
    cases t
    case andSel c d =>
      simp only [selEq, Bool.or_eq_true, Bool.and_eq_true] at h
      rcases h with ⟨h1, h2⟩ | ⟨h1, h2⟩
      · show (a.matches e && b.matches e) = (c.matches e && d.matches e)
        rw [iha _ h1 e, ihb _ h2 e]
      · show (a.matches e && b.matches e) = (c.matches e && d.matches e)
        rw [iha _ h1 e, ihb _ h2 e, Bool.and_comm]
    all_goals simp [selEq] at h
  | orSel a b iha ihb =>
    intro t h e
    cases t
    case orSel c d =>
      simp only [selEq, Bool.or_eq_true, Bool.and_eq_true] at h
      rcases h with ⟨h1, h2⟩ | ⟨h1, h2⟩
      · show (a.matches e || b.matches e) = (c.matches e || d.matches e)
        rw [iha _ h1 e, ihb _ h2 e]
      · show (a.matches e || b.matches e) = (c.matches e || d.matches e)
        rw [iha _ h1 e, ihb _ h2 e, Bool.or_comm]
    all_goals simp [selEq] at h
  | notSel a ih =>
    intro t h e
    cases t
    case notSel x =>
      simp only [selEq] at h
      show (!a.matches e) = (!x.matches e)
      rw [ih _ h e]
    all_goals simp [selEq] at h

/-- **C5.** Modelled from the spec (the Python `__eq__` implementations
are not in the snapshot): structural selector equality — insensitive to
the operand order of the binary conjunction and disjunction — is
reflexive, symmetric and transitive, and equal selectors produce
identical `find_all` results on every document, search mode and limit. -/
theorem selector_equality_contract :
    (∀ s : Selector, selEq s s = true) ∧
    (∀ s t : Selector, selEq s t = true → selEq t s = true) ∧
    (∀ s t u : Selector,
      selEq s t = true → selEq t u = true → selEq s u = true) ∧
    (∀ (s t : Selector) (root : Node) (recursive : Bool) (limit : Option Nat),
      selEq s t = true →
      s.find_all root recursive limit = t.find_all root recursive limit) := by
  refine ⟨selEq_refl, selEq_symm, selEq_trans, ?_⟩
  intro s t root recursive limit h
  unfold Selector.find_all
  rw [List.filter_congr fun x _ => selEq_matches s t h x]

/-- Witness for C5: commuted conjunction operands on `sampleDoc`. -/
theorem selector_equality_contract_witness :
    selEq (.andSel (.typeSel (some "p")) (.classSel "x"))
        (.andSel (.classSel "x") (.typeSel (some "p"))) = true ∧
    selEq (.andSel (.classSel "x") (.typeSel (some "p")))
        (.andSel (.typeSel (some "p")) (.classSel "x")) = true ∧
    Selector.find_all (.andSel (.typeSel (some "p")) (.classSel "x"))
        sampleDoc true none
      = Selector.find_all (.andSel (.classSel "x") (.typeSel (some "p")))
        sampleDoc true none := by
  refine ⟨by decide, selector_equality_contract.2.1 _ _ (by decide),
    selector_equality_contract.2.2.2 _ _ sampleDoc true none (by decide)⟩

/-! ## Correctness of the `an+b` predicate -/

/-- **C4.** Modelled from the spec (the positional matcher sources are not
in the snapshot): a 1-based sibling position `p` satisfies the decidable
check iff `p = a*n + b` for some non-negative integer `n`; parsing `"2n"`
yields `a = 2, b = 0`; and on a flat sequence of six siblings,
`NthChild("2n")` selects exactly positions `{2,4,6}`, `NthChild("odd")`
exactly `{1,3,5}` and `NthLastChild(1)` exactly `{6}`. -/
theorem nth_formula_correct :
    (∀ (a b : Int) (p : Nat),
      nthCheck a b p = true ↔ ∃ n : Nat, (p : Int) = a * n + b) ∧
    nthParse "2n" = some (2, 0) ∧
    nthParse "odd" = some (2, 1) ∧
    nthChildSelect "2n" 6 = [2, 4, 6] ∧
    nthChildSelect "odd" 6 = [1, 3, 5] ∧
    nthLastChildSelect 0 1 6 = [6] := by
  refine ⟨?_, by decide, by decide, by decide, by decide, by decide⟩
  intro a b p
  unfold nthCheck
  by_cases ha : a = 0
  · subst ha
    rw [if_pos rfl, beq_iff_eq]
    constructor
    · intro h
      refine ⟨0, ?_⟩
      rw [zero_mul, zero_add]
      omega
    · rintro ⟨n, hn⟩
      rw [zero_mul, zero_add] at hn
      omega
  · rw [if_neg ha]
    simp only [Bool.and_eq_true, beq_iff_eq, decide_eq_true_eq]
    constructor
    · rintro ⟨h1, h2⟩
      have hdvd : a ∣ (p : Int) - b := Int.dvd_of_emod_eq_zero h1
      refine ⟨(((p : Int) - b) / a).toNat, ?_⟩
      rw [Int.toNat_of_nonneg h2, Int.mul_ediv_cancel' hdvd]
      omega
    · rintro ⟨n, hn⟩
      have hd : (p : Int) - b = a * n := by omega
      refine ⟨?_, ?_⟩
      · rw [hd]
        exact Int.mul_emod_right a n
      · rw [hd, Int.mul_ediv_cancel_left _ ha]
        exact Int.natCast_nonneg n

/-- Witness for C4: position 4 among six siblings satisfies `2n`. -/
theorem nth_formula_correct_witness : nthCheck 2 0 4 = true :=
  (nth_formula_correct.1 2 0 4).mpr ⟨2, by decide⟩
